import Mathlib

/-!
Verification of the govmap_geoserver bulk WFS downloader
(src/govmap_geoserver.py) against its specification.

The transport is modelled as an oracle mapping a page request
(start index, requested count) to the upstream's response: a JSON page
holding a (possibly empty) feature list, a timeout, or another failure.
All functions of the source are embedded shallowly; the recursive
shrink-and-retry fetcher is embedded with an explicit fuel argument
(structurally decreasing) together with a proof that any fuel larger
than the requested count gives the same result, which matches the
Python recursion since every recursive call strictly decreases `count`.
Machine arithmetic note: Python computes `int(count * 0.1)`, which
equals `count / 10` in natural-number arithmetic over the realistic
range of feature counts; the embedding uses `count / 10`.
-/

namespace Govmap

/-- Result of a single transport page request (`requests.get` inside
`fetch_features`): a successful JSON page carrying a feature list
(a success whose body lacks a `features` key behaves exactly like an
empty list, so it is represented by `ok []`), a timeout, or any other
failure. -/
inductive FetchResult (α : Type) where
  | ok (features : List α)
  | timeout
  | other
deriving DecidableEq

/-- `fetch_features` (lines 57-73): on success returns the parsed JSON
(`some l`), on a timeout re-raises (modelled as `.error ()`), on any
other exception logs and returns `None` (modelled as `.ok none`). -/
def fetch_features {α : Type} (oracle : Nat → Nat → FetchResult α)
    (start_index count : Nat) : Except Unit (Option (List α)) :=
  match oracle start_index count with
  | .ok l => .ok (some l)
  | .timeout => .error ()
  | .other => .ok none

/-- The feature list a call's result contributes once its exception, if
any, has been absorbed: the `except` handler around each recursive
sub-call (lines 105-112) only logs, so a raising call contributes
nothing. -/
def exceptList {α : Type} : Except Unit (List α) → List α
  | .ok l => l
  | .error _ => []

/-- `small_count = max(int(count * 0.1), min_chunk)` (line 97). -/
def small_count (count min_chunk : Nat) : Nat :=
  max (count / 10) min_chunk

/-- The sub-window start offsets generated by
`range(start_index, start_index + count, sc)` (line 100). -/
def subStarts (start_index count sc : Nat) : List Nat :=
  List.range' start_index ((count + sc - 1) / sc) sc

/-- The shrink sub-windows `(sub_start, sub_count)` with
`sub_count = min(sc, start_index + count - sub_start)` (lines 100-101). -/
def subWindows (start_index count sc : Nat) : List (Nat × Nat) :=
  (subStarts start_index count sc).map
    (fun s => (s, min sc (start_index + count - s)))

/-- Everything one call of `fetch_features_with_retry` (lines 75-113)
produces: the value it returns (or the exception it would raise, as
`.error`), the ordered trace of transport page requests it issues, and
the depth of the shrink recursion. Recursive sub-calls that raise
contribute no features (the handler at lines 105-112 only logs). -/
structure FetchRun (α : Type) where
  outcome : Except Unit (List α)
  calls : List (Nat × Nat)
  depth : Nat

/-- Fuel-indexed embedding of `fetch_features_with_retry`: a successful
page is returned as-is (an empty feature list stays empty, line 85), a
non-timeout failure becomes an empty result (lines 88-90 and the
`None` path), a timeout at `count <= min_chunk` stops with an empty
result (lines 93-95), and otherwise the window is split into
`subWindows` fetched recursively in offset order, concatenating the
features each sub-call returns (lines 97-113). -/
def fetchRunGo {α : Type} (oracle : Nat → Nat → FetchResult α)
    (min_chunk : Nat) : Nat → Nat → Nat → FetchRun α
  | 0, _, _ => ⟨.ok [], [], 0⟩
  | fuel + 1, start_index, count =>
    match fetch_features oracle start_index count with
    | .ok (some l) => ⟨.ok l, [(start_index, count)], 1⟩
    | .ok none => ⟨.ok [], [(start_index, count)], 1⟩
    | .error _ =>
      if count ≤ min_chunk then ⟨.ok [], [(start_index, count)], 1⟩
      else
        let subs := (subWindows start_index count (small_count count min_chunk)).map
          (fun w => fetchRunGo oracle min_chunk fuel w.1 w.2)
        ⟨.ok ((subs.map (fun r => exceptList r.outcome)).flatten),
          (start_index, count) :: (subs.map FetchRun.calls).flatten,
          1 + (subs.map FetchRun.depth).foldr max 0⟩

/-- The run of one `fetch_features_with_retry` call; fuel `count + 1`
suffices because every recursive call strictly decreases `count`. -/
def fetchRun {α : Type} (oracle : Nat → Nat → FetchResult α)
    (start_index count min_chunk : Nat) : FetchRun α :=
  fetchRunGo oracle min_chunk (count + 1) start_index count

/-- The feature list `fetch_features_with_retry` returns (it never
raises; see `fetchRun_outcome_ok`). -/
def fetch_features_with_retry {α : Type} (oracle : Nat → Nat → FetchResult α)
    (start_index count min_chunk : Nat) : List α :=
  exceptList (fetchRun oracle start_index count min_chunk).outcome

/-- Outcome of the count query of `get_feature_count` (lines 36-55):
a response with a `numberMatched` attribute, a response lacking it,
or a failed request. -/
inductive CountResult where
  | ok (n : Nat)
  | missingAttr
  | failure
deriving DecidableEq

/-- `get_feature_count`: the parsed total, or 0 when the attribute is
absent (lines 50-52) or the call fails (lines 53-55). -/
def get_feature_count : CountResult → Nat
  | .ok n => n
  | .missingAttr => 0
  | .failure => 0

/-- What reading back the persisted GeoPackage for a layer can yield
(lines 115-130): the file is absent, reading it fails, or it holds
`n` records. -/
inductive SinkRead where
  | absent
  | readError
  | found (n : Nat)
deriving DecidableEq

/-- `check_existing_geopackage`: false when the file is absent
(lines 117-118) or unreadable (lines 128-130), and otherwise true
exactly when the persisted count equals the expected count
(lines 121-127). -/
def check_existing_geopackage (sink : SinkRead) (expected_count : Nat) : Bool :=
  match sink with
  | .absent => false
  | .readError => false
  | .found n => n == expected_count

/-- The configuration surface: `CHUNK_SIZE` (line 12, default 2000),
the `min_chunk` floor (line 75, default 1), `FORCE_OVERWRITE`
(line 15, default false). -/
structure Config where
  chunkSize : Nat
  minChunk : Nat
  forceOverwrite : Bool
deriving DecidableEq

/-- The window starts of `range(0, count, CHUNK_SIZE)` (line 148). -/
def windowStarts (total chunkSize : Nat) : List Nat :=
  List.range' 0 ((total + chunkSize - 1) / chunkSize) chunkSize

/-- What the per-window call at line 150 returns or raises. -/
def windowResult {α : Type} (oracle : Nat → Nat → FetchResult α)
    (min_chunk chunkSize s : Nat) : Except Unit (List α) :=
  (fetchRun oracle s chunkSize min_chunk).outcome

/-- The `missing_chunks` starts of `process_layer`: a window start is
recorded when the fetch raises (handler at lines 151-160) or returns
no features (lines 162-171). -/
def missing_chunks {α : Type} (oracle : Nat → Nat → FetchResult α)
    (min_chunk chunkSize total : Nat) : List Nat :=
  (windowStarts total chunkSize).filter (fun s =>
    match windowResult oracle min_chunk chunkSize s with
    | .error _ => true
    | .ok l => l.isEmpty)

/-- The successful chunks written to temporary files (lines 175-184),
as `(window start, features)` in window order. -/
def goodChunks {α : Type} (oracle : Nat → Nat → FetchResult α)
    (min_chunk chunkSize total : Nat) : List (Nat × List α) :=
  (windowStarts total chunkSize).filterMap (fun s =>
    match windowResult oracle min_chunk chunkSize s with
    | .error _ => none
    | .ok l => if l.isEmpty then none else some (s, l))

/-- The window starts at which the per-window exception handler of
`process_layer` (lines 151-160) would fire, i.e. at which
`fetch_features_with_retry` raises. -/
def handlerFired {α : Type} (oracle : Nat → Nat → FetchResult α)
    (min_chunk chunkSize total : Nat) : List Nat :=
  (windowStarts total chunkSize).filter (fun s =>
    match windowResult oracle min_chunk chunkSize s with
    | .error _ => true
    | .ok _ => false)

/-- The number of transport page requests one `process_layer` run
issues across all windows. -/
def pageCallCount {α : Type} (oracle : Nat → Nat → FetchResult α)
    (min_chunk chunkSize total : Nat) : Nat :=
  ((windowStarts total chunkSize).map
    (fun s => ((fetchRun oracle s chunkSize min_chunk).calls).length)).sum

/-- Per-layer outcome of `process_layer`: skipped because the count is
zero (lines 137-139), skipped because a complete GeoPackage exists
(lines 141-142), finished without writing because no chunk survived to
the merge (lines 200-202), or written output together with the
recorded missing-chunk starts (lines 204-214). -/
inductive RunResult (α : Type) where
  | skippedNoFeatures
  | skippedExisting
  | noOutput (missing : List Nat)
  | written (records : List α) (missing : List Nat)
deriving DecidableEq

/-- Result of `process_layer` plus the number of page requests issued. -/
structure ProcessResult (α : Type) where
  result : RunResult α
  pageCalls : Nat
deriving DecidableEq

/-- `process_layer` (lines 132-214): query the count, skip when zero;
skip when (unless forced) a complete GeoPackage already exists; fetch
each `CHUNK_SIZE` window, recording empty or raising windows in
`missing_chunks`; read the per-chunk temporary files back (a chunk
whose read-back fails — `readOk` false — is dropped, lines 191-198);
if nothing was collected, return without writing (lines 200-202),
otherwise write the concatenation in window order (lines 204-208). -/
def process_layer {α : Type} (count_res : CountResult) (sink : SinkRead)
    (oracle : Nat → Nat → FetchResult α) (readOk : Nat → Bool)
    (cfg : Config) : ProcessResult α :=
  let count := get_feature_count count_res
  if count = 0 then ⟨.skippedNoFeatures, 0⟩
  else if !cfg.forceOverwrite && check_existing_geopackage sink count then
    ⟨.skippedExisting, 0⟩
  else
    let gdfs := ((goodChunks oracle cfg.minChunk cfg.chunkSize count).filter
      (fun p => readOk p.1)).map Prod.snd
    let calls := pageCallCount oracle cfg.minChunk cfg.chunkSize count
    if gdfs.isEmpty then
      ⟨.noOutput (missing_chunks oracle cfg.minChunk cfg.chunkSize count), calls⟩
    else
      ⟨.written gdfs.flatten (missing_chunks oracle cfg.minChunk cfg.chunkSize count),
        calls⟩

/-- The record collection a run assembled (empty unless output was
written). -/
def RunResult.records {α : Type} : RunResult α → List α
  | .written r _ => r
  | _ => []

/-- The recorded missing-chunk starts of a run. -/
def RunResult.missing {α : Type} : RunResult α → List Nat
  | .noOutput m => m
  | .written _ m => m
  | _ => []

/-- Whether a run wrote (overwrote) the layer's GeoPackage. -/
def RunResult.writesOutput {α : Type} : RunResult α → Bool
  | .written _ _ => true
  | _ => false

/-- Effect of a run on the persisted GeoPackage: `to_file` (line 207)
replaces it with the assembled records; every other path leaves the
previous contents untouched. -/
def sinkAfter {α : Type} (prev : Option (List α)) : RunResult α → Option (List α)
  | .written records _ => some records
  | _ => prev

/-- The spec's accounting invariant, stated in its own count form: the
record counts of the fetched pages plus the spans of the recorded
unresolved ranges cover the whole `[0, total)` span. -/
def accountedSpan {α : Type} (chunkSize total : Nat) (r : RunResult α) : Prop :=
  total ≤ r.records.length +
    (r.missing.map (fun s => min chunkSize (total - s))).sum

instance {α : Type} (chunkSize total : Nat) (r : RunResult α) :
    Decidable (accountedSpan chunkSize total r) :=
  Nat.decLe _ _

/-- The feature list a successful transport response to `(s, c)`
carries (empty for failures); used to state the upstream ordering
assumptions of the spec. -/
def pageFeatures {α : Type} (oracle : Nat → Nat → FetchResult α)
    (s c : Nat) : List α :=
  match oracle s c with
  | .ok l => l
  | .timeout => []
  | .other => []

/-- A transport that serves only the singleton page at offset 0 and
times out on every other request; at the floor every other singleton
window is abandoned with only a log. -/
def oracleMixed : Nat → Nat → FetchResult Nat := fun s c =>
  if s == 0 && c == 1 then .ok [10] else .timeout

/-- A transport that times out on every request. -/
def oracleTimeout : Nat → Nat → FetchResult Nat := fun _ _ => .timeout

/-- A transport that answers every request `(s, c)` with the sorted
page `[s, s + c)`, the records standing for their sort keys. -/
def oracleRange : Nat → Nat → FetchResult Nat := fun s c =>
  .ok (List.range' s c)

/-- A transport that answers every request with an empty page. -/
def oracleEmpty : Nat → Nat → FetchResult Nat := fun _ _ => .ok []

/-! ### Arithmetic facts about the shrink partition -/

lemma length_subWindows (s c sc : Nat) :
    (subWindows s c sc).length = (c + sc - 1) / sc := by
  simp [subWindows, subStarts]

lemma mul_lt_of_lt_numSub {i c sc : Nat} (hsc : 1 ≤ sc)
    (hi : i < (c + sc - 1) / sc) : sc * i < c := by
  have h1 : (i + 1) * sc ≤ c + sc - 1 := (Nat.le_div_iff_mul_le hsc).mp hi
  have h2 : i * sc + sc ≤ c + sc - 1 := by
    calc i * sc + sc = (i + 1) * sc := by ring
    _ ≤ c + sc - 1 := h1
  have := Nat.mul_comm sc i
  omega

lemma subWindows_getElem {s c sc : Nat} (hsc : 1 ≤ sc) (i : Nat)
    (hi : i < (subWindows s c sc).length) :
    (subWindows s c sc)[i] =
      (s + sc * i, min sc (c - sc * i)) := by
  have hlen : i < (c + sc - 1) / sc := by
    rw [← length_subWindows s c sc]; exact hi
  have hm : sc * i < c := mul_lt_of_lt_numSub hsc hlen
  simp only [subWindows, subStarts, List.get_eq_getElem, List.getElem_map,
    List.getElem_range']
  have hsub : s + c - (s + sc * i) = c - sc * i := by omega
  rw [hsub]

lemma subWindows_snd_le {s c sc : Nat} {w : Nat × Nat}
    (hw : w ∈ subWindows s c sc) : w.2 ≤ sc := by
  simp only [subWindows, List.mem_map] at hw
  obtain ⟨p, _, rfl⟩ := hw
  exact Nat.min_le_left _ _

lemma subWindows_mem_facts {s c sc : Nat} (hsc : 1 ≤ sc) {w : Nat × Nat}
    (hw : w ∈ subWindows s c sc) :
    s ≤ w.1 ∧ w.1 + w.2 ≤ s + c ∧ 1 ≤ w.2 ∧ w.2 ≤ sc := by
  rw [List.mem_iff_getElem] at hw
  obtain ⟨i, hi, hget⟩ := hw
  rw [subWindows_getElem hsc i hi] at hget
  have hlen : i < (c + sc - 1) / sc := by
    rw [← length_subWindows s c sc]; exact hi
  have hm : sc * i < c := mul_lt_of_lt_numSub hsc hlen
  subst hget
  refine ⟨by omega, by simp; omega, by simp; omega, Nat.min_le_left _ _⟩

lemma small_count_lt {c mc : Nat} (h : mc < c) : small_count c mc < c := by
  have h10 : c / 10 < c := Nat.div_lt_self (by omega) (by omega)
  exact Nat.max_lt.mpr ⟨h10, h⟩

lemma one_le_small_count {c mc : Nat} (h : 1 ≤ mc) :
    1 ≤ small_count c mc :=
  le_trans h (Nat.le_max_right _ _)

lemma range_min_sum {sc : Nat} (hsc : 1 ≤ sc) :
    ∀ (n s c : Nat), n = (c + sc - 1) / sc →
      ((List.range' s n sc).map (fun p => min sc (s + c - p))).sum = c := by
  intro n
  induction n with
  | zero =>
    intro s c h
    have hc : c = 0 := by
      by_contra hc
      have h1 : 1 ≤ (c + sc - 1) / sc := by
        rw [Nat.le_div_iff_mul_le hsc]
        omega
      omega
    simp [hc]
  | succ n ih =>
    intro s c h
    rw [List.range'_succ]
    simp only [List.map_cons, List.sum_cons]
    by_cases hcsc : c ≤ sc
    · have hc1 : 1 ≤ c := by
        by_contra hc
        have hc0 : c = 0 := by omega
        subst hc0
        rw [Nat.div_eq_of_lt (by omega)] at h
        omega
      have h2 : (c + sc - 1) / sc < 2 := by
        rw [Nat.div_lt_iff_lt_mul hsc]
        omega
      have hn : n = 0 := by omega
      subst hn
      simp
      omega
    · push_neg at hcsc
      have hrw : c + sc - 1 = (c - 1) + sc := by omega
      rw [hrw, Nat.add_div_right _ hsc] at h
      have htail := ih (s + sc) (c - sc) (by
        have : c - sc + sc - 1 = c - 1 := by omega
        rw [this]
        omega)
      have hfun : s + sc + (c - sc) = s + c := by omega
      rw [hfun] at htail
      rw [htail]
      omega

lemma subWindows_sum {s c sc : Nat} (hsc : 1 ≤ sc) :
    ((subWindows s c sc).map Prod.snd).sum = c := by
  have h := range_min_sum hsc ((c + sc - 1) / sc) s c rfl
  simpa [subWindows, subStarts, List.map_map, Function.comp_def] using h

/-! ### Fuel irrelevance and the unfolding equation of the fetcher -/

lemma fetchRunGo_fuel {α : Type} (oracle : Nat → Nat → FetchResult α)
    (mc : Nat) : ∀ (f g s c : Nat), c < f → c < g →
      fetchRunGo oracle mc f s c = fetchRunGo oracle mc g s c := by
  intro f
  induction f with
  | zero => intro g s c hf; omega
  | succ f ih =>
    intro g s c hf hg
    match g, hg with
    | g + 1, hg =>
      simp only [fetchRunGo]
      cases hff : fetch_features oracle s c with
      | ok d => cases d <;> rfl
      | error e =>
        simp only
        by_cases hc : c ≤ mc
        · simp [hc]
        · simp only [if_neg hc]
          have hmap : (subWindows s c (small_count c mc)).map
              (fun w => fetchRunGo oracle mc f w.1 w.2) =
              (subWindows s c (small_count c mc)).map
              (fun w => fetchRunGo oracle mc g w.1 w.2) := by
            apply List.map_congr_left
            intro w hw
            have hle : w.2 ≤ small_count c mc := subWindows_snd_le hw
            have hlt : small_count c mc < c := small_count_lt (by omega)
            exact ih g w.1 w.2 (by omega) (by omega)
          rw [hmap]

lemma fetchRun_eq_go {α : Type} (oracle : Nat → Nat → FetchResult α)
    (mc f s c : Nat) (h : c < f) :
    fetchRunGo oracle mc f s c = fetchRun oracle s c mc :=
  fetchRunGo_fuel oracle mc f (c + 1) s c h (Nat.lt_succ_self c)

lemma fetchRun_unfold {α : Type} (oracle : Nat → Nat → FetchResult α)
    (s c mc : Nat) :
    fetchRun oracle s c mc =
      match fetch_features oracle s c with
      | .ok (some l) => ⟨.ok l, [(s, c)], 1⟩
      | .ok none => ⟨.ok [], [(s, c)], 1⟩
      | .error _ =>
        if c ≤ mc then ⟨.ok [], [(s, c)], 1⟩
        else
          let subs := (subWindows s c (small_count c mc)).map
            (fun w => fetchRun oracle w.1 w.2 mc)
          ⟨.ok ((subs.map (fun r => exceptList r.outcome)).flatten),
            (s, c) :: (subs.map FetchRun.calls).flatten,
            1 + (subs.map FetchRun.depth).foldr max 0⟩ := by
  conv_lhs => rw [fetchRun]
  simp only [fetchRunGo]
  cases hff : fetch_features oracle s c with
  | ok d => cases d <;> rfl
  | error e =>
    simp only
    by_cases hc : c ≤ mc
    · simp [hc]
    · simp only [if_neg hc]
      have hmap : (subWindows s c (small_count c mc)).map
          (fun w => fetchRunGo oracle mc c w.1 w.2) =
          (subWindows s c (small_count c mc)).map
          (fun w => fetchRun oracle w.1 w.2 mc) := by
        apply List.map_congr_left
        intro w hw
        have hle : w.2 ≤ small_count c mc := subWindows_snd_le hw
        have hlt : small_count c mc < c := small_count_lt (by omega)
        exact fetchRun_eq_go oracle mc c w.1 w.2 (by omega)
      rw [hmap]

lemma fetchRun_outcome_ok {α : Type} (oracle : Nat → Nat → FetchResult α)
    (s c mc : Nat) :
    (fetchRun oracle s c mc).outcome =
      .ok (fetch_features_with_retry oracle s c mc) := by
  rw [fetch_features_with_retry]
  rw [fetchRun_unfold oracle s c mc]
  cases hff : fetch_features oracle s c with
  | ok d => cases d <;> rfl
  | error e =>
    by_cases hc : c ≤ mc
    · simp [hc, exceptList]
    · simp [hc, exceptList]

/-! ### Characterizations of the per-window bookkeeping -/

lemma windowResult_eq {α : Type} (oracle : Nat → Nat → FetchResult α)
    (mc cs s : Nat) :
    windowResult oracle mc cs s =
      .ok (fetch_features_with_retry oracle s cs mc) := by
  rw [windowResult, fetchRun_outcome_ok]

lemma missing_chunks_filter {α : Type} (oracle : Nat → Nat → FetchResult α)
    (mc cs total : Nat) :
    missing_chunks oracle mc cs total =
      (windowStarts total cs).filter
        (fun s => (fetch_features_with_retry oracle s cs mc).isEmpty) := by
  unfold missing_chunks
  apply List.filter_congr
  intro s _
  rw [windowResult_eq]

lemma filterMap_if_not {β γ : Type} (l : List β) (b : β → Bool) (e : β → γ) :
    (l.filterMap (fun x => if b x then none else some (e x))) =
      (l.filter (fun x => !b x)).map e := by
  induction l with
  | nil => rfl
  | cons x l ih =>
    by_cases hb : b x <;>
      simp [List.filterMap_cons, List.filter_cons, hb, ih]

lemma goodChunks_eq {α : Type} (oracle : Nat → Nat → FetchResult α)
    (mc cs total : Nat) :
    goodChunks oracle mc cs total =
      ((windowStarts total cs).filter
        (fun s => !(fetch_features_with_retry oracle s cs mc).isEmpty)).map
        (fun s => (s, fetch_features_with_retry oracle s cs mc)) := by
  unfold goodChunks
  have hfun : (fun s =>
      match windowResult oracle mc cs s with
      | .error _ => none
      | .ok l => if l.isEmpty then none else some (s, l)) =
      (fun s => if (fetch_features_with_retry oracle s cs mc).isEmpty
        then none else some (s, fetch_features_with_retry oracle s cs mc)) := by
    funext s
    rw [windowResult_eq]
  rw [hfun, filterMap_if_not]

lemma handlerFired_nil {α : Type} (oracle : Nat → Nat → FetchResult α)
    (mc cs total : Nat) : handlerFired oracle mc cs total = [] := by
  unfold handlerFired
  rw [List.filter_eq_nil_iff]
  intro s _
  rw [windowResult_eq]
  simp

/-! ### Depth bound of the shrink recursion -/

lemma foldr_max_le {l : List Nat} {b : Nat} (h : ∀ x ∈ l, x ≤ b) :
    l.foldr max 0 ≤ b := by
  induction l with
  | nil => exact Nat.zero_le b
  | cons x l ih =>
    simp only [List.foldr_cons]
    have h1 := h x (by simp)
    have h2 := ih (fun y hy => h y (by simp [hy]))
    omega

lemma fetchRun_depth_floor {α : Type} (oracle : Nat → Nat → FetchResult α)
    (s c mc : Nat) (h : c ≤ mc) : (fetchRun oracle s c mc).depth = 1 := by
  rw [fetchRun_unfold]
  cases hff : fetch_features oracle s c with
  | ok d => cases d <;> rfl
  | error e => simp [h]

lemma fetchRun_depth_le {α : Type} (oracle : Nat → Nat → FetchResult α)
    {mc : Nat} (hmc : 1 ≤ mc) :
    ∀ c s, (fetchRun oracle s c mc).depth ≤ Nat.log 10 (c / mc) + 2 := by
  intro c
  induction c using Nat.strong_induction_on with
  | _ c ih =>
    intro s
    rw [fetchRun_unfold]
    cases hff : fetch_features oracle s c with
    | ok d => cases d <;> simp
    | error e =>
      by_cases hc : c ≤ mc
      · simp [hc]
      · simp only [if_neg hc]
        have hbound : ∀ w ∈ subWindows s c (small_count c mc),
            (fetchRun oracle w.1 w.2 mc).depth ≤ Nat.log 10 (c / mc) + 1 := by
          intro w hw
          have hle : w.2 ≤ small_count c mc := subWindows_snd_le hw
          by_cases hwmc : w.2 ≤ mc
          · rw [fetchRun_depth_floor oracle w.1 w.2 mc hwmc]
            omega
          · push_neg at hwmc
            have hsc : mc < small_count c mc := by omega
            have hce : small_count c mc = c / 10 := by
              rcases max_choice (c / 10) mc with hmax | hmax
              · exact hmax
              · rw [small_count] at hsc ⊢
                omega
            have hc10 : mc + 1 ≤ c / 10 := by omega
            have hcc : (mc + 1) * 10 ≤ c := by
              rw [Nat.le_div_iff_mul_le (by omega)] at hc10
              omega
            have h10 : 10 ≤ c / mc := by
              rw [Nat.le_div_iff_mul_le (by omega)]
              omega
            have hlogpos : 1 ≤ Nat.log 10 (c / mc) :=
              Nat.log_pos (by omega) h10
            have hwlt : w.2 < c := by
              have := small_count_lt (show mc < c by omega)
              omega
            have hdiv : w.2 / mc ≤ c / mc / 10 := by
              have h1 : w.2 / mc ≤ (c / 10) / mc :=
                Nat.div_le_div_right (by omega)
              have h2 : c / 10 / mc = c / mc / 10 := by
                rw [Nat.div_div_eq_div_mul, Nat.div_div_eq_div_mul,
                  Nat.mul_comm]
              omega
            have hlog : Nat.log 10 (w.2 / mc) ≤ Nat.log 10 (c / mc) - 1 := by
              have h1 : Nat.log 10 (w.2 / mc) ≤ Nat.log 10 (c / mc / 10) :=
                Nat.log_mono_right hdiv
              rw [Nat.log_div_base] at h1
              exact h1
            have := ih w.2 hwlt w.1
            omega
        have hfold : ((((subWindows s c (small_count c mc)).map
            (fun w => fetchRun oracle w.1 w.2 mc)).map FetchRun.depth).foldr
              max 0) ≤ Nat.log 10 (c / mc) + 1 := by
          apply foldr_max_le
          intro x hx
          rw [List.map_map, List.mem_map] at hx
          obtain ⟨w, hw, rfl⟩ := hx
          exact hbound w hw
        omega

/-! ### Span containment and ordering of the fetched records -/

lemma mem_fetch_span {α : Type} {oracle : Nat → Nat → FetchResult α}
    {mc : Nat} (hmc : 1 ≤ mc) :
    ∀ (c s : Nat) (x : α), x ∈ fetch_features_with_retry oracle s c mc →
      ∃ p q, s ≤ p ∧ p + q ≤ s + c ∧ x ∈ pageFeatures oracle p q := by
  intro c
  induction c using Nat.strong_induction_on with
  | _ c ih =>
    intro s x hx
    rw [fetch_features_with_retry, fetchRun_unfold] at hx
    cases ho : oracle s c with
    | ok l =>
      have hfe : fetch_features oracle s c = .ok (some l) := by
        simp [fetch_features, ho]
      rw [hfe] at hx
      refine ⟨s, c, le_refl s, le_refl _, ?_⟩
      simpa [pageFeatures, ho, exceptList] using hx
    | timeout =>
      have hfe : fetch_features oracle s c = .error () := by
        simp [fetch_features, ho]
      rw [hfe] at hx
      by_cases hc : c ≤ mc
      · simp [hc, exceptList] at hx
      · simp only [if_neg hc, exceptList] at hx
        rw [List.mem_flatten] at hx
        obtain ⟨lw, hlw, hxl⟩ := hx
        rw [List.map_map, List.mem_map] at hlw
        obtain ⟨w, hw, rfl⟩ := hlw
        have hsc1 : 1 ≤ small_count c mc := one_le_small_count hmc
        obtain ⟨hws, hwe, hw1, hwsc⟩ := subWindows_mem_facts hsc1 hw
        have hwlt : w.2 < c :=
          lt_of_le_of_lt hwsc (small_count_lt (by omega))
        have hxf : x ∈ fetch_features_with_retry oracle w.1 w.2 mc := hxl
        obtain ⟨p, q, hp, hq, hmem⟩ := ih w.2 hwlt w.1 x hxf
        exact ⟨p, q, le_trans hws hp, le_trans hq (by omega), hmem⟩
    | other =>
      have hfe : fetch_features oracle s c = .ok none := by
        simp [fetch_features, ho]
      rw [hfe] at hx
      simp [exceptList] at hx

lemma subWindows_pairwise {s c sc : Nat} (hsc : 1 ≤ sc) :
    (subWindows s c sc).Pairwise (fun w1 w2 => w1.1 + w1.2 ≤ w2.1) := by
  rw [List.pairwise_iff_getElem]
  intro i j hi hj hij
  rw [subWindows_getElem hsc i hi, subWindows_getElem hsc j hj]
  have hmul : sc * (i + 1) ≤ sc * j := Nat.mul_le_mul_left sc (by omega)
  rw [Nat.mul_succ] at hmul
  simp only
  omega

lemma sorted_of_pairwise {l : List Nat}
    (h : List.Pairwise (fun x y : Nat => x ≤ y) l) : l.Sorted (· ≤ ·) := h

lemma fetch_sorted {oracle : Nat → Nat → FetchResult Nat} {mc : Nat}
    (hmc : 1 ≤ mc)
    (H1 : ∀ p q, (pageFeatures oracle p q).Sorted (· ≤ ·))
    (H2 : ∀ p q u v, p + q ≤ u → ∀ x ∈ pageFeatures oracle p q,
      ∀ y ∈ pageFeatures oracle u v, x ≤ y) :
    ∀ (c s : Nat), (fetch_features_with_retry oracle s c mc).Sorted (· ≤ ·) := by
  intro c
  induction c using Nat.strong_induction_on with
  | _ c ih =>
    intro s
    rw [fetch_features_with_retry, fetchRun_unfold]
    cases ho : oracle s c with
    | ok l =>
      have hfe : fetch_features oracle s c = .ok (some l) := by
        simp [fetch_features, ho]
      rw [hfe]
      have hs := H1 s c
      simpa [pageFeatures, ho, exceptList] using hs
    | timeout =>
      have hfe : fetch_features oracle s c = .error () := by
        simp [fetch_features, ho]
      rw [hfe]
      by_cases hc : c ≤ mc
      · simp [hc, exceptList]
      · simp only [if_neg hc, exceptList]
        rw [List.map_map]
        have hsc1 : 1 ≤ small_count c mc := one_le_small_count hmc
        apply sorted_of_pairwise
        refine List.pairwise_flatten.mpr ⟨?_, ?_⟩
        · intro l hl
          rw [List.mem_map] at hl
          obtain ⟨w, hw, rfl⟩ := hl
          have hwlt : w.2 < c :=
            lt_of_le_of_lt (subWindows_snd_le hw) (small_count_lt (by omega))
          exact ih w.2 hwlt w.1
        · rw [List.pairwise_map]
          have hpw : (subWindows s c (small_count c mc)).Pairwise
              (fun w1 w2 => w1.1 + w1.2 ≤ w2.1) := subWindows_pairwise hsc1
          refine hpw.imp_of_mem ?_
          intro w1 w2 hm1 hm2 hspan x hx y hy
          have hx' : x ∈ fetch_features_with_retry oracle w1.1 w1.2 mc := hx
          have hy' : y ∈ fetch_features_with_retry oracle w2.1 w2.2 mc := hy
          obtain ⟨p, q, hp, hq, hxp⟩ := mem_fetch_span hmc w1.2 w1.1 x hx'
          obtain ⟨u, v, hu, hv, hyu⟩ := mem_fetch_span hmc w2.2 w2.1 y hy'
          exact H2 p q u v (by omega) x hxp y hyu
    | other =>
      have hfe : fetch_features oracle s c = .ok none := by
        simp [fetch_features, ho]
      rw [hfe]
      simp [exceptList]

lemma windowStarts_pairwise {total cs : Nat} :
    (windowStarts total cs).Pairwise (fun a b => a + cs ≤ b) := by
  rw [List.pairwise_iff_getElem]
  intro i j hi hj hij
  simp only [windowStarts, List.getElem_range'] at hi hj ⊢
  have hmul : cs * (i + 1) ≤ cs * j := Nat.mul_le_mul_left cs (by omega)
  rw [Nat.mul_succ] at hmul
  omega

lemma gdfs_eq {α : Type} (oracle : Nat → Nat → FetchResult α)
    (mc cs total : Nat) (readOk : Nat → Bool) :
    ((goodChunks oracle mc cs total).filter (fun p => readOk p.1)).map
      Prod.snd =
      ((windowStarts total cs).filter
        (fun s => readOk s &&
          !(fetch_features_with_retry oracle s cs mc).isEmpty)).map
        (fun s => fetch_features_with_retry oracle s cs mc) := by
  rw [goodChunks_eq, List.filter_map, List.map_map, List.filter_filter]
  rfl

lemma sorted_flatten_windows {oracle : Nat → Nat → FetchResult Nat}
    {mc : Nat} (hmc : 1 ≤ mc)
    (H1 : ∀ p q, (pageFeatures oracle p q).Sorted (· ≤ ·))
    (H2 : ∀ p q u v, p + q ≤ u → ∀ x ∈ pageFeatures oracle p q,
      ∀ y ∈ pageFeatures oracle u v, x ≤ y)
    (cs total : Nat) (pred : Nat → Bool) :
    (((windowStarts total cs).filter pred).map
      (fun s => fetch_features_with_retry oracle s cs mc)).flatten.Sorted
      (· ≤ ·) := by
  apply sorted_of_pairwise
  refine List.pairwise_flatten.mpr ⟨?_, ?_⟩
  · intro l hl
    rw [List.mem_map] at hl
    obtain ⟨w, _, rfl⟩ := hl
    exact fetch_sorted hmc H1 H2 cs w
  · rw [List.pairwise_map]
    have hpw : (windowStarts total cs).Pairwise (fun a b => a + cs ≤ b) :=
      windowStarts_pairwise
    have hpwf : ((windowStarts total cs).filter pred).Pairwise
        (fun a b => a + cs ≤ b) :=
      hpw.sublist (List.filter_sublist _)
    refine hpwf.imp_of_mem ?_
    intro a b hm1 hm2 hspan x hx y hy
    obtain ⟨p, q, hp, hq, hxp⟩ := mem_fetch_span hmc cs a x hx
    obtain ⟨u, v, hu, hv, hyu⟩ := mem_fetch_span hmc cs b y hy
    exact H2 p q u v (by omega) x hxp y hyu

/-! ### The claims -/

/-- Claim C1, as stated, is false: in the run below the window `[0, 4)`
times out, its singleton sub-window at offset 0 succeeds with one
record, and the three remaining singleton sub-windows time out at the
floor and are abandoned with only a log line; the window therefore
returns a non-empty list, is not recorded in `missing_chunks`, and the
offsets 1, 2, 3 are covered neither by a fetched record nor by any
unresolved entry, so the `[0, total)` span is not accounted for. -/
theorem c1_counterexample :
    fetch_features_with_retry oracleMixed 0 4 1 = [10] ∧
    (process_layer (.ok 4) .absent oracleMixed (fun _ => true)
      ⟨4, 1, false⟩).result.missing = [] ∧
    ¬ accountedSpan 4 4 ((process_layer (.ok 4) .absent oracleMixed
      (fun _ => true) ⟨4, 1, false⟩).result) := by
  refine ⟨by decide, by decide, by decide⟩

/-- Claim C1, amended: the accounting holds only at whole-window
granularity — every window start produced by the downloader's stride
is either recorded in `missing_chunks` or yielded a non-empty record
list; offsets lost inside a partially successful window are not
recorded anywhere. -/
theorem c1_amended {α : Type} (oracle : Nat → Nat → FetchResult α)
    (mc cs total : Nat) :
    ∀ s ∈ windowStarts total cs,
      s ∈ missing_chunks oracle mc cs total ∨
        fetch_features_with_retry oracle s cs mc ≠ [] := by
  intro s hs
  rw [missing_chunks_filter]
  by_cases he : fetch_features_with_retry oracle s cs mc = []
  · left
    rw [List.mem_filter]
    exact ⟨hs, by simp [he]⟩
  · right
    exact he

/-- Witness for the amended C1 at a concrete input. -/
theorem c1_amended_witness :
    (0 ∈ windowStarts 4 4) ∧
    (0 ∈ missing_chunks oracleMixed 1 4 4 ∨
      fetch_features_with_retry oracleMixed 0 4 1 ≠ []) :=
  ⟨by decide, c1_amended oracleMixed 1 4 4 0 (by decide)⟩

/-- Claim C2, as stated, is false in its bookkeeping part: the
singleton window `(1, 1)` is issued during the run below, times out
with its requested count at the floor `min_chunk = 1`, and the fetcher
does stop and return empty — but nothing about it is recorded in the
download outcome: `missing_chunks` is empty (the enclosing window
`[0, 4)` returned a non-empty list), so the `(start, count)` window is
not recorded as unresolved anywhere. -/
theorem c2_counterexample :
    (1, 1) ∈ (fetchRun oracleMixed 0 4 1).calls ∧
    oracleMixed 1 1 = .timeout ∧
    fetch_features_with_retry oracleMixed 1 1 1 = [] ∧
    missing_chunks oracleMixed 1 4 4 = [] ∧
    (process_layer (.ok 4) .absent oracleMixed (fun _ => true)
      ⟨4, 1, false⟩).result.missing = [] := by
  refine ⟨by decide, by decide, by decide, by decide, by decide⟩

/-- Claim C2, amended: on a timeout for a window whose requested count
is at or below `min_chunk` the fetcher stops — it issues no further
transport calls — and returns an empty record list; the skip is only
logged, and no unresolved entry for that `(start, count)` window is
added to the download outcome (the outcome records the enclosing
top-level window only when that whole window comes back empty). -/
theorem c2_amended {α : Type} (oracle : Nat → Nat → FetchResult α)
    (s c mc : Nat) (ht : oracle s c = .timeout) (hc : c ≤ mc) :
    fetch_features_with_retry oracle s c mc = [] ∧
    (fetchRun oracle s c mc).calls = [(s, c)] := by
  have hfe : fetch_features oracle s c = .error () := by
    simp [fetch_features, ht]
  constructor
  · rw [fetch_features_with_retry, fetchRun_unfold, hfe]
    simp [hc, exceptList]
  · rw [fetchRun_unfold, hfe]
    simp [hc]

/-- Witness for the amended C2 at a concrete input. -/
theorem c2_amended_witness :
    (oracleTimeout 7 1 = .timeout ∧ 1 ≤ 1) ∧
    (fetch_features_with_retry oracleTimeout 7 1 1 = [] ∧
      (fetchRun oracleTimeout 7 1 1).calls = [(7, 1)]) :=
  ⟨⟨by decide, by decide⟩,
    c2_amended oracleTimeout 7 1 1 (by decide) (by decide)⟩

/-- Claim C3: on a timeout with `count > min_chunk` the fetcher
computes `small_count = max(floor(count / 10), min_chunk)` and
partitions `[start, start + count)` into consecutive sub-windows of
that size: the i-th sub-window starts at `start + small_count * i`,
its size is `small_count` truncated to what remains, the sizes sum
exactly to `count`, and consecutive sub-windows are adjacent (each
starts where the previous one ends), so there is no overlap and no
gap. -/
theorem c3_shrink_partition (start_index count min_chunk : Nat)
    (hmc : 1 ≤ min_chunk) (hlt : min_chunk < count) :
    small_count count min_chunk = max (count / 10) min_chunk ∧
    ((subWindows start_index count (small_count count min_chunk)).map
      Prod.snd).sum = count ∧
    (∀ i (hi : i < (subWindows start_index count
        (small_count count min_chunk)).length),
      (subWindows start_index count (small_count count min_chunk)).get
        ⟨i, hi⟩ =
        (start_index + small_count count min_chunk * i,
          min (small_count count min_chunk)
            (count - small_count count min_chunk * i))) ∧
    List.Chain' (fun w1 w2 => w2.1 = w1.1 + w1.2)
      (subWindows start_index count (small_count count min_chunk)) := by
  have hsc : 1 ≤ small_count count min_chunk := one_le_small_count hmc
  refine ⟨rfl, subWindows_sum hsc, ?_, ?_⟩
  · intro i hi
    rw [List.get_eq_getElem]
    exact subWindows_getElem hsc i hi
  · rw [List.chain'_iff_get]
    intro i hlen
    have hlw := length_subWindows start_index count
      (small_count count min_chunk)
    have hi1 : i < (subWindows start_index count
        (small_count count min_chunk)).length := by omega
    have hi2 : i + 1 < (subWindows start_index count
        (small_count count min_chunk)).length := by omega
    rw [List.get_eq_getElem, List.get_eq_getElem,
      subWindows_getElem hsc i hi1, subWindows_getElem hsc (i + 1) hi2]
    have hlen4 : i + 2 ≤ (count + small_count count min_chunk - 1) /
        small_count count min_chunk := by omega
    have hup : (i + 2) * small_count count min_chunk ≤
        count + small_count count min_chunk - 1 :=
      (Nat.le_div_iff_mul_le hsc).mp hlen4
    have hexp : (i + 2) * small_count count min_chunk =
        small_count count min_chunk * i + small_count count min_chunk +
          small_count count min_chunk := by ring
    simp only
    rw [Nat.mul_succ]
    omega

/-- Witness for C3 at a concrete input. -/
theorem c3_witness :
    (1 ≤ 1 ∧ 1 < 25) ∧
    (small_count 25 1 = max (25 / 10) 1 ∧
      ((subWindows 0 25 (small_count 25 1)).map Prod.snd).sum = 25 ∧
      (∀ i (hi : i < (subWindows 0 25 (small_count 25 1)).length),
        (subWindows 0 25 (small_count 25 1)).get ⟨i, hi⟩ =
          (0 + small_count 25 1 * i,
            min (small_count 25 1) (25 - small_count 25 1 * i))) ∧
      List.Chain' (fun w1 w2 => w2.1 = w1.1 + w1.2)
        (subWindows 0 25 (small_count 25 1))) :=
  ⟨⟨by decide, by decide⟩, c3_shrink_partition 0 25 1 (by decide) (by decide)⟩

/-- Claim C4, as stated, is false in its middle conjunct: with
`min_chunk = 10` a timed-out window `[0, 25)` is split with
`small_count = max(2, 10) = 10` into sub-windows of sizes 10, 10, 5,
and the truncated last sub-window `(20, 5)` — strictly smaller than
`min_chunk` — is issued to the transport. -/
theorem c4_counterexample :
    (20, 5) ∈ (fetchRun oracleTimeout 0 25 10).calls ∧ 5 < 10 := by
  refine ⟨by decide, by decide⟩

/-- Claim C4, amended: the shrink recursion terminates — every shrink
sub-window is strictly smaller than its parent and non-empty (only the
truncated last sub-window may be smaller than `min_chunk`; a window at
or below `min_chunk` is never split further), and the recursion depth
is bounded by `log10(count / min_chunk) + 2` for every transport
behavior, in particular when every request times out. -/
theorem c4_amended {α : Type} (oracle : Nat → Nat → FetchResult α)
    (s c mc : Nat) (hmc : 1 ≤ mc) (hc : 1 ≤ c) :
    (mc < c → ∀ w ∈ subWindows s c (small_count c mc),
      w.2 < c ∧ 1 ≤ w.2) ∧
    (fetchRun oracle s c mc).depth ≤ Nat.log 10 (c / mc) + 2 := by
  constructor
  · intro hlt w hw
    have hsc1 : 1 ≤ small_count c mc := one_le_small_count hmc
    obtain ⟨_, _, h1, hle⟩ := subWindows_mem_facts hsc1 hw
    exact ⟨lt_of_le_of_lt hle (small_count_lt hlt), h1⟩
  · exact fetchRun_depth_le oracle hmc c s

/-- Witness for the amended C4 at a concrete input. -/
theorem c4_amended_witness :
    (1 ≤ 10 ∧ 1 ≤ 25) ∧
    ((10 < 25 → ∀ w ∈ subWindows 0 25 (small_count 25 10),
      w.2 < 25 ∧ 1 ≤ w.2) ∧
      (fetchRun oracleTimeout 0 25 10).depth ≤ Nat.log 10 (25 / 10) + 2) :=
  ⟨⟨by decide, by decide⟩,
    c4_amended oracleTimeout 0 25 10 (by decide) (by decide)⟩

lemma process_records_cases {α : Type} (cr : CountResult) (sr : SinkRead)
    (oracle : Nat → Nat → FetchResult α) (readOk : Nat → Bool)
    (cfg : Config) :
    (process_layer cr sr oracle readOk cfg).result.records = [] ∨
    (process_layer cr sr oracle readOk cfg).result.records =
      (((windowStarts (get_feature_count cr) cfg.chunkSize).filter
        (fun s => readOk s && !(fetch_features_with_retry oracle s
          cfg.chunkSize cfg.minChunk).isEmpty)).map
        (fun s => fetch_features_with_retry oracle s cfg.chunkSize
          cfg.minChunk)).flatten := by
  unfold process_layer
  by_cases h1 : get_feature_count cr = 0
  · left
    simp [h1, RunResult.records]
  · simp only [if_neg h1]
    by_cases h2 : (!cfg.forceOverwrite && check_existing_geopackage sr
        (get_feature_count cr)) = true
    · left
      simp [h2, RunResult.records]
    · rw [if_neg h2]
      by_cases h3 : (((goodChunks oracle cfg.minChunk cfg.chunkSize
          (get_feature_count cr)).filter (fun p => readOk p.1)).map
          Prod.snd).isEmpty = true
      · left
        rw [if_pos h3]
        rfl
      · right
        rw [if_neg h3]
        show (((goodChunks oracle cfg.minChunk cfg.chunkSize
          (get_feature_count cr)).filter (fun p => readOk p.1)).map
          Prod.snd).flatten = _
        rw [gdfs_eq]

/-- Claim C5: if the upstream serves each page sorted ascending by the
sort key (`H1`) and pages of disjoint, increasing request windows hold
increasing keys (`H2`), then the shrink fetcher returns a sorted list
for every window — sub-windows are issued and concatenated in offset
order without reordering — and the record collection `process_layer`
assembles (concatenating chunks in ascending window-start order) is
sorted as well. -/
theorem c5_ordering (oracle : Nat → Nat → FetchResult Nat)
    (cr : CountResult) (sr : SinkRead) (readOk : Nat → Bool)
    (cfg : Config) (hmc : 1 ≤ cfg.minChunk)
    (H1 : ∀ p q, (pageFeatures oracle p q).Sorted (· ≤ ·))
    (H2 : ∀ p q u v, p + q ≤ u → ∀ x ∈ pageFeatures oracle p q,
      ∀ y ∈ pageFeatures oracle u v, x ≤ y) :
    (∀ s c, (fetch_features_with_retry oracle s c cfg.minChunk).Sorted
      (· ≤ ·)) ∧
    ((process_layer cr sr oracle readOk cfg).result.records).Sorted
      (· ≤ ·) := by
  refine ⟨fun s c => fetch_sorted hmc H1 H2 c s, ?_⟩
  rcases process_records_cases cr sr oracle readOk cfg with h | h
  · rw [h]
    exact List.sorted_nil
  · rw [h]
    exact sorted_flatten_windows hmc H1 H2 cfg.chunkSize
      (get_feature_count cr) _

/-- Witness for C5 at a concrete input: the transport serves the
sorted page `[s, s + c)` for every request. -/
theorem c5_ordering_witness :
    (1 ≤ 1) ∧
    ((∀ s c, (fetch_features_with_retry oracleRange s c 1).Sorted
      (· ≤ ·)) ∧
      ((process_layer (.ok 3) .absent oracleRange (fun _ => true)
        ⟨2, 1, false⟩).result.records).Sorted (· ≤ ·)) := by
  refine ⟨le_refl 1, c5_ordering oracleRange (.ok 3) .absent
    (fun _ => true) ⟨2, 1, false⟩ (le_refl 1) ?_ ?_⟩
  · intro p q
    exact sorted_of_pairwise (List.pairwise_le_range' p q)
  · intro p q u v hle x hx y hy
    have hx' : x ∈ List.range' p q := hx
    have hy' : y ∈ List.range' u v := hy
    rw [List.mem_range'_1] at hx' hy'
    omega

/-- Claim C6: only a timeout triggers shrink retries — a transport
response carrying a page (empty included) is returned as-is with a
single transport call and no splitting, and a non-timeout failure
yields an empty result, likewise with a single transport call (no
shrink, no retry). -/
theorem c6_only_timeout_shrinks {α : Type}
    (oracle : Nat → Nat → FetchResult α) (s c mc : Nat) (l : List α) :
    (oracle s c = .ok l →
      fetch_features_with_retry oracle s c mc = l ∧
      (fetchRun oracle s c mc).calls = [(s, c)]) ∧
    (oracle s c = .other →
      fetch_features_with_retry oracle s c mc = [] ∧
      (fetchRun oracle s c mc).calls = [(s, c)]) := by
  constructor
  · intro ho
    have hfe : fetch_features oracle s c = .ok (some l) := by
      simp [fetch_features, ho]
    constructor
    · rw [fetch_features_with_retry, fetchRun_unfold, hfe]
      rfl
    · rw [fetchRun_unfold, hfe]
  · intro ho
    have hfe : fetch_features oracle s c = .ok none := by
      simp [fetch_features, ho]
    constructor
    · rw [fetch_features_with_retry, fetchRun_unfold, hfe]
      rfl
    · rw [fetchRun_unfold, hfe]

/-- Witness for C6 at concrete inputs (both branches). -/
theorem c6_witness :
    (oracleRange 5 2 = .ok [5, 6] →
      fetch_features_with_retry oracleRange 5 2 1 = [5, 6] ∧
      (fetchRun oracleRange 5 2 1).calls = [(5, 2)]) ∧
    (oracleRange 5 2 = .other →
      fetch_features_with_retry oracleRange 5 2 1 = [] ∧
      (fetchRun oracleRange 5 2 1).calls = [(5, 2)]) :=
  c6_only_timeout_shrinks oracleRange 5 2 1 [5, 6]

/-- Claim C7: a count query whose response lacks the total attribute,
or which fails, yields 0; and whenever the counter yields 0 the
downloader issues zero page-fetch calls and produces the empty,
non-error skipped outcome. -/
theorem c7_zero_count_skips {α : Type} (cr : CountResult)
    (sr : SinkRead) (oracle : Nat → Nat → FetchResult α)
    (readOk : Nat → Bool) (cfg : Config) :
    get_feature_count .missingAttr = 0 ∧
    get_feature_count .failure = 0 ∧
    (get_feature_count cr = 0 →
      process_layer cr sr oracle readOk cfg = ⟨.skippedNoFeatures, 0⟩) := by
  refine ⟨rfl, rfl, fun h => ?_⟩
  unfold process_layer
  simp [h]

/-- Witness for C7 at a concrete input. -/
theorem c7_witness :
    get_feature_count .missingAttr = 0 ∧
    get_feature_count .failure = 0 ∧
    (get_feature_count .failure = 0 →
      process_layer .failure .absent oracleMixed (fun _ => true)
        ⟨4, 1, false⟩ = ⟨.skippedNoFeatures, 0⟩) :=
  c7_zero_count_skips .failure .absent oracleMixed (fun _ => true)
    ⟨4, 1, false⟩

/-- Claim C8: `check_existing_geopackage` returns true exactly when
the persisted output exists, is readable, and its count equals the
expected count (so a read error yields false, never an exception);
and with `forceOverwrite = false`, when the persisted count equals the
upstream total, `process_layer` issues zero page-fetch calls and
writes nothing. -/
theorem c8_idempotent_skip {α : Type} (cr : CountResult)
    (sr : SinkRead) (oracle : Nat → Nat → FetchResult α)
    (readOk : Nat → Bool) (cfg : Config) (e : Nat) :
    (check_existing_geopackage sr e = true ↔ sr = .found e) ∧
    check_existing_geopackage .readError e = false ∧
    (cfg.forceOverwrite = false → sr = .found (get_feature_count cr) →
      (process_layer cr sr oracle readOk cfg).pageCalls = 0 ∧
      (process_layer cr sr oracle readOk cfg).result.writesOutput =
        false) := by
  refine ⟨?_, rfl, fun hf hsr => ?_⟩
  · cases sr with
    | absent => simp [check_existing_geopackage]
    | readError => simp [check_existing_geopackage]
    | found n =>
      simp [check_existing_geopackage]
  · subst hsr
    unfold process_layer
    by_cases h0 : get_feature_count cr = 0
    · simp [h0, RunResult.writesOutput]
    · simp [h0, hf, check_existing_geopackage, RunResult.writesOutput]

/-- Witness for C8 at a concrete input. -/
theorem c8_witness :
    ((check_existing_geopackage (.found 4) 4 = true ↔
      SinkRead.found 4 = .found 4) ∧
    check_existing_geopackage .readError 4 = false ∧
    ((false : Bool) = false → SinkRead.found 4 = .found (get_feature_count (.ok 4)) →
      (process_layer (.ok 4) (.found 4) oracleMixed (fun _ => true)
        ⟨4, 1, false⟩).pageCalls = 0 ∧
      (process_layer (.ok 4) (.found 4) oracleMixed (fun _ => true)
        ⟨4, 1, false⟩).result.writesOutput = false)) ∧
    (process_layer (.ok 4) (.found 4) oracleMixed (fun _ => true)
      ⟨4, 1, false⟩).pageCalls = 0 :=
  ⟨c8_idempotent_skip (.ok 4) (.found 4) oracleMixed (fun _ => true)
    ⟨4, 1, false⟩ 4,
   (c8_idempotent_skip (.ok 4) (.found 4) oracleMixed (fun _ => true)
    ⟨4, 1, false⟩ 4).2.2 rfl rfl |>.1⟩

/-- Claim C9: the fetcher is total with respect to transport failures:
for every input its outcome is a returned (possibly empty) record
list, never a raised exception — timeouts are absorbed by the shrink
path and other failures become empty results — so the per-window
exception handler of `process_layer` never fires. -/
theorem c9_fetcher_total {α : Type} (oracle : Nat → Nat → FetchResult α)
    (mc cs total s c : Nat) :
    (fetchRun oracle s c mc).outcome =
      .ok (fetch_features_with_retry oracle s c mc) ∧
    handlerFired oracle mc cs total = [] :=
  ⟨fetchRun_outcome_ok oracle s c mc, handlerFired_nil oracle mc cs total⟩

/-- Claim C10: when no window of a layer contributes records to the
merge — every window comes back empty or its temporary chunk file
fails to read back — `process_layer` writes no output, leaving any
previously persisted output for the layer unchanged. -/
theorem c10_no_records_no_write {α : Type} (cr : CountResult)
    (sr : SinkRead) (oracle : Nat → Nat → FetchResult α)
    (readOk : Nat → Bool) (cfg : Config) (prev : Option (List α))
    (h : ∀ s ∈ windowStarts (get_feature_count cr) cfg.chunkSize,
      fetch_features_with_retry oracle s cfg.chunkSize cfg.minChunk = [] ∨
        readOk s = false) :
    (process_layer cr sr oracle readOk cfg).result.writesOutput = false ∧
    sinkAfter prev (process_layer cr sr oracle readOk cfg).result =
      prev := by
  have hgdfs : ((goodChunks oracle cfg.minChunk cfg.chunkSize
      (get_feature_count cr)).filter (fun p => readOk p.1)).map
      Prod.snd = [] := by
    rw [gdfs_eq]
    rw [List.map_eq_nil_iff, List.filter_eq_nil_iff]
    intro s hs
    rcases h s hs with he | hr
    · simp [he]
    · simp [hr]
  unfold process_layer
  by_cases h1 : get_feature_count cr = 0
  · simp [h1, RunResult.writesOutput, sinkAfter]
  · simp only [if_neg h1]
    by_cases h2 : (!cfg.forceOverwrite && check_existing_geopackage sr
        (get_feature_count cr)) = true
    · simp [h2, RunResult.writesOutput, sinkAfter]
    · simp only [h2, if_false]
      simp [hgdfs, RunResult.writesOutput, sinkAfter]

/-- Witness for C10 at a concrete input: every page comes back empty. -/
theorem c10_witness :
    (∀ s ∈ windowStarts (get_feature_count (.ok 2)) 2,
      fetch_features_with_retry oracleEmpty s 2 1 = [] ∨
        (fun _ : Nat => true) s = false) ∧
    ((process_layer (.ok 2) .absent oracleEmpty (fun _ => true)
      ⟨2, 1, false⟩).result.writesOutput = false ∧
    sinkAfter (some [99]) (process_layer (.ok 2) .absent oracleEmpty
      (fun _ => true) ⟨2, 1, false⟩).result = some [99]) :=
  ⟨by decide, c10_no_records_no_write (.ok 2) .absent oracleEmpty
    (fun _ => true) ⟨2, 1, false⟩ (some [99]) (by decide)⟩

end Govmap
